import Mathlib

set_option maxRecDepth 8000

/-
Verification of the skillsmd remote-provider layer and lock store.

Shallow embedding of:
  src/skillsmd/providers/__init__.py   (registry, fetch_remote_skill)
  src/skillsmd/providers/huggingface.py
  src/skillsmd/providers/mintlify.py
  src/skillsmd/providers/wellknown.py
  src/skillsmd/skill_lock.py

Conventions of the embedding:
  - Python/JSON values that the code manipulates without type checks are
    a `PyVal` inductive; Python truthiness, dict operations, and the
    `isinstance(_, int)` test (bool is a subclass of int) are modelled
    explicitly.
  - Fallible Python code is embedded in `Except PyExc`; a `try/except`
    clause becomes a match on the body's result filtered through the
    caught exception classes.
  - Network responses and third-party parsers (httpx, frontmatter) are
    oracles passed as explicit function arguments, so theorems quantify
    over every possible remote behaviour.
  - URLs are `List Char`; `urllib.parse.urlparse` is modelled for
    http(s) URLs (scheme, netloc, path, hostname extraction including
    userinfo/port stripping and lowercasing; mismatched brackets raise
    ValueError; bracketed IPv6 hosts are conservatively treated as the
    same parse failure, which no claim depends on).
-/

/-- Python exception classes the embedded code raises or catches. -/
inductive PyExc where
  | fileNotFoundError
  | osError
  | jsonDecodeError
  | unicodeDecodeError
  | valueError
  | requestError
  | attributeError
  | yamlError
deriving DecidableEq

/-- Python subclass test against OSError (FileNotFoundError derives from it). -/
def isOSError : PyExc → Bool
  | .fileNotFoundError => true
  | .osError => true
  | _ => false

/-- Python subclass test against ValueError (json.JSONDecodeError and
UnicodeDecodeError both derive from ValueError). -/
def isValueError : PyExc → Bool
  | .valueError => true
  | .jsonDecodeError => true
  | .unicodeDecodeError => true
  | _ => false

/-- JSON-like Python values: the results of `json.loads` and of parsing
front matter. -/
inductive PyVal where
  | pnone
  | pbool (b : Bool)
  | pint (n : Int)
  | pstr (s : String)
  | plist (xs : List PyVal)
  | pdict (fields : List (String × PyVal))

/-- Python truthiness `bool(v)` of a JSON-like value. -/
def truthy : PyVal → Bool
  | .pnone => false
  | .pbool b => b
  | .pint n => n != 0
  | .pstr s => s.length != 0
  | .plist xs => xs.length != 0
  | .pdict d => d.length != 0

/-- Python dict lookup `d.get(k)` over an insertion-ordered association
list (first binding wins; dict keys never repeat). -/
def dget {α : Type} : List (String × α) → String → Option α
  | [], _ => none
  | p :: rest, k => if p.1 == k then some p.2 else dget rest k

/-- Python dict lookup with default, `d.get(k, dflt)`. -/
def dgetD {α : Type} (d : List (String × α)) (k : String) (dflt : α) : α :=
  (dget d k).getD dflt

/-- Python key test `k in d`. -/
def dmem {α : Type} (d : List (String × α)) (k : String) : Bool :=
  (dget d k).isSome

/-- Python dict update `d[k] = v`: replaces the first binding of `k` in
place, or appends a new binding at the end. -/
def dset {α : Type} : List (String × α) → String → α → List (String × α)
  | [], k, v => [(k, v)]
  | p :: rest, k, v => if p.1 == k then (k, v) :: rest else p :: dset rest k v

/-- Python dict deletion `del d[k]` (dict keys never repeat, so removing
every binding of `k` from the association list is the same operation). -/
def ddel {α : Type} (d : List (String × α)) (k : String) : List (String × α) :=
  List.filter (fun p => p.1 != k) d

/-- skill_lock.SkillLockEntry. Field values stay `PyVal` because
`_dict_to_lock_entry` copies whatever the JSON held, with no type checks. -/
structure SkillLockEntry where
  source : PyVal
  source_type : PyVal
  source_url : PyVal
  skill_folder_hash : PyVal
  installed_at : PyVal
  updated_at : PyVal
  skill_path : PyVal

/-- skill_lock.SkillLockFile; the single-field DismissedPrompts dataclass
is inlined as `dismissed_find_skills_prompt`. -/
structure SkillLockFile where
  version : PyVal
  skills : List (String × SkillLockEntry)
  dismissed_find_skills_prompt : PyVal
  last_selected_agents : PyVal

/-- skill_lock.CURRENT_VERSION. -/
def CURRENT_VERSION : Int := 3

/-- skill_lock._create_empty_lock_file (the SkillLockFile() defaults). -/
def emptyLockFile : SkillLockFile :=
  { version := .pint CURRENT_VERSION
  , skills := []
  , dismissed_find_skills_prompt := .pbool false
  , last_selected_agents := .pnone }

/-- The observable state of the lock file on disk, as seen through
`Path.read_text` followed by `json.loads`. -/
inductive LockFileState where
  | readFail (e : PyExc)
  | parseFail
  | value (v : PyVal)

/-- skill_lock._dict_to_lock_entry; a non-dict entry value raises
AttributeError in Python (`.get` on a non-dict). -/
def dict_to_lock_entry : PyVal → Except PyExc SkillLockEntry
  | .pdict d => .ok
      { source := dgetD d "source" (.pstr "")
      , source_type := dgetD d "sourceType" (.pstr "")
      , source_url := dgetD d "sourceUrl" (.pstr "")
      , skill_folder_hash := dgetD d "skillFolderHash" (.pstr "")
      , installed_at := dgetD d "installedAt" (.pstr "")
      , updated_at := dgetD d "updatedAt" (.pstr "")
      , skill_path := dgetD d "skillPath" .pnone }
  | _ => .error .attributeError

/-- Python `isinstance(v, int)`; bool is a subclass of int. -/
def isPyInt : PyVal → Bool
  | .pint _ => true
  | .pbool _ => true
  | _ => false

/-- The integer value of a Python int-like value (True is 1, False is 0). -/
def pyIntVal : PyVal → Int
  | .pint n => n
  | .pbool b => if b then 1 else 0
  | _ => 0

/-- skill_lock._dict_to_lock_file. -/
def dict_to_lock_file (d : List (String × PyVal)) : Except PyExc SkillLockFile := do
  let skillPairs ←
    match dgetD d "skills" (.pdict []) with
    | .pdict sd => sd.mapM (fun p => do
        let e ← dict_to_lock_entry p.2
        pure (p.1, e))
    | _ => .error .attributeError
  let findSkills ←
    match dgetD d "dismissed" (.pdict []) with
    | .pdict dd => .ok (dgetD dd "findSkillsPrompt" (.pbool false))
    | _ => .error .attributeError
  pure
    { version := dgetD d "version" (.pint CURRENT_VERSION)
    , skills := skillPairs
    , dismissed_find_skills_prompt := findSkills
    , last_selected_agents := dgetD d "lastSelectedAgents" .pnone }

/-- The try-block body of skill_lock.read_skill_lock: read, json-parse,
version validation, wipe-if-stale, conversion. -/
def read_skill_lock_body : LockFileState → Except PyExc SkillLockFile
  | .readFail e => .error e
  | .parseFail => .error .jsonDecodeError
  | .value v =>
    match v with
    | .pdict d =>
      if !(isPyInt (dgetD d "version" .pnone)) || !(dmem d "skills") then
        .ok emptyLockFile
      else if pyIntVal (dgetD d "version" .pnone) < CURRENT_VERSION then
        .ok emptyLockFile
      else
        dict_to_lock_file d
    | _ => .error .attributeError

/-- skill_lock.read_skill_lock: the try body filtered through
`except (FileNotFoundError, json.JSONDecodeError, OSError)`, which maps
those failures to a fresh empty lock file. -/
def read_skill_lock (st : LockFileState) : Except PyExc SkillLockFile :=
  match read_skill_lock_body st with
  | .ok lock => .ok lock
  | .error e =>
    if isOSError e || e == PyExc.jsonDecodeError then .ok emptyLockFile
    else .error e

/-- The SkillLockEntry literal built inside skill_lock.add_skill_to_lock:
keeps the existing entry's installed_at when present, otherwise stamps
`now` (`datetime.now().isoformat()`); updated_at is always `now`. -/
def mkLockEntry (now source source_type source_url skill_folder_hash : String)
    (skill_path : Option String) (existing : Option SkillLockEntry) :
    SkillLockEntry :=
  { source := .pstr source
  , source_type := .pstr source_type
  , source_url := .pstr source_url
  , skill_folder_hash := .pstr skill_folder_hash
  , installed_at :=
      match existing with
      | some e => e.installed_at
      | none => .pstr now
  , updated_at := .pstr now
  , skill_path :=
      match skill_path with
      | some p => .pstr p
      | none => .pnone }

/-- skill_lock.add_skill_to_lock: reads the lock for on-disk state `st`
with `datetime.now()` rendered as `now`, upserts the entry under the
skill name, and returns the lock file handed to write_skill_lock. -/
def add_skill_to_lock (st : LockFileState) (now : String)
    (skill_name source source_type source_url skill_folder_hash : String)
    (skill_path : Option String) : Except PyExc SkillLockFile :=
  match read_skill_lock st with
  | .error e => .error e
  | .ok lock =>
    let entry := mkLockEntry now source source_type source_url skill_folder_hash skill_path (dget lock.skills skill_name)
    .ok { lock with skills := dset lock.skills skill_name entry }

/-- skill_lock.remove_skill_from_lock: returns the Python boolean result
paired with the lock file written back (`none` when no write happens). -/
def remove_skill_from_lock (st : LockFileState) (skill_name : String) :
    Except PyExc (Bool × Option SkillLockFile) :=
  match read_skill_lock st with
  | .error e => .error e
  | .ok lock =>
    if dmem lock.skills skill_name then
      .ok (true, some { lock with skills := ddel lock.skills skill_name })
    else
      .ok (false, none)

/-- A concrete lock entry as produced by reading an empty JSON object
(all defaults); used by witnesses. -/
def demoEntry : SkillLockEntry :=
  { source := .pstr "", source_type := .pstr "", source_url := .pstr ""
  , skill_folder_hash := .pstr "", installed_at := .pstr ""
  , updated_at := .pstr "", skill_path := .pnone }

/-- A concrete on-disk lock state: a version-3 JSON object holding a
single skill named "demo"; used by witnesses. -/
def demoLockState : LockFileState :=
  .value (.pdict [("version", .pint 3), ("skills", .pdict [("demo", .pdict [])])])

/-- The in-memory lock file that `demoLockState` reads as. -/
def demoLock : SkillLockFile :=
  { version := .pint 3, skills := [("demo", demoEntry)]
  , dismissed_find_skills_prompt := .pbool false
  , last_selected_agents := .pnone }

/- ========== URLs and urllib.parse (http/https fragment) ========== -/

/-- The character list of a string literal; URLs are `List Char` in this
development so that string algorithms can be reasoned about directly. -/
def cs (s : String) : List Char := s.toList

/-- Python str.startswith. -/
def pyStartsWith (pre u : List Char) : Bool := List.isPrefixOf pre u

/-- Python str.endswith. -/
def pyEndsWith (suf u : List Char) : Bool := List.isSuffixOf suf u

/-- Python `sub in s` substring test. -/
def pyContains (sub u : List Char) : Bool := decide (sub <:+: u)

/-- Python str.lower (the claims only involve ASCII URLs). -/
def pyLower (u : List Char) : List Char := u.map Char.toLower

/-- The components of a parsed URL consulted by the providers: scheme,
netloc and path (query and fragment are cut away; the params component
of urlparse is not split off, which no claim exercises). -/
structure UrlParts where
  scheme : List Char
  netloc : List Char
  path : List Char

/-- Characters ending the netloc component. -/
def notNetlocEnd (c : Char) : Bool := !(c == '/' || c == '?' || c == '#')

/-- Characters ending the path component. -/
def notPathEnd (c : Char) : Bool := !(c == '?' || c == '#')

/-- Split a lowercase http/https scheme off a URL. -/
def splitScheme (u : List Char) : Option (List Char × List Char) :=
  if pyStartsWith (cs "http://") u then some (cs "http", u.drop 7)
  else if pyStartsWith (cs "https://") u then some (cs "https", u.drop 8)
  else none

/-- urllib.parse.urlparse, modelled for http(s) URLs. A netloc holding a
square bracket raises ValueError (urlsplit's Invalid IPv6 URL check for
mismatched brackets; well-formed bracketed IPv6 hosts are conservatively
mapped to the same failure — no claim involves IPv6 hosts). A URL without
an http(s) scheme parses as pure path, as urlparse does for scheme-less
input; the providers never consult that case. -/
def urlparse (u : List Char) : Except PyExc UrlParts :=
  match splitScheme u with
  | some (sch, rest) =>
    let netloc := rest.takeWhile notNetlocEnd
    if netloc.contains '[' || netloc.contains ']' then .error .valueError
    else
      .ok { scheme := sch
          , netloc := netloc
          , path := (rest.drop netloc.length).takeWhile notPathEnd }
  | none => .ok { scheme := [], netloc := [], path := u.takeWhile notPathEnd }

/-- ParseResult.hostname: the netloc after the last '@' (userinfo
stripped), before the first ':' (port stripped), lowercased; an empty
host is Python's None. -/
def hostnameOf (netloc : List Char) : Option (List Char) :=
  let hostinfo := (netloc.reverse.takeWhile (fun c => !(c == '@'))).reverse
  let host := hostinfo.takeWhile (fun c => !(c == ':'))
  if host.isEmpty then none else some (pyLower host)

/-- providers.base.ProviderMatch (the source names the first field
`matches`, a reserved word in Lean, hence `matched`). -/
structure ProviderMatch where
  matched : Bool
  source_identifier : Option (List Char) := none

/-- The EXCLUDED_HOSTS list shared verbatim by mintlify.py and
wellknown.py. -/
def EXCLUDED_HOSTS : List (List Char) :=
  [cs "github.com", cs "gitlab.com", cs "huggingface.co", cs "raw.githubusercontent.com"]

/-- MintlifyProvider.get_source_identifier: mintlify/<hostname>, with
"com" standing in when the URL has no hostname (or parsing raises). -/
def mintlify_get_source_identifier (u : List Char) : List Char :=
  match urlparse u with
  | .ok parts => cs "mintlify/" ++ ((hostnameOf parts.netloc).getD (cs "com"))
  | .error _ => cs "mintlify/com"

/-- MintlifyProvider.match: http(s), ends in /skill.md case-insensitively,
hostname not an excluded git host; urlparse failures are caught and
reported as no-match. -/
def mintlify_match (u : List Char) : ProviderMatch :=
  if !(pyStartsWith (cs "http://") u) && !(pyStartsWith (cs "https://") u) then
    { matched := false }
  else if !(pyEndsWith (cs "/skill.md") (pyLower u)) then
    { matched := false }
  else
    match urlparse u with
    | .error _ => { matched := false }
    | .ok parts =>
      if EXCLUDED_HOSTS.contains ((hostnameOf parts.netloc).getD []) then
        { matched := false }
      else
        { matched := true
        , source_identifier := some (mintlify_get_source_identifier u) }

/-- huggingface.HuggingFaceProvider._parse_url: the first (leftmost)
match of the regular expression `/spaces/([^/]+)/([^/]+)`, with both
groups taken greedily as maximal nonempty slash-free runs. -/
def parseSpaces : List Char → Option (List Char × List Char)
  | [] => none
  | c :: rest =>
    if pyStartsWith (cs "/spaces/") (c :: rest) then
      let after := (c :: rest).drop 8
      let owner := after.takeWhile (fun x => !(x == '/'))
      let rest2 := after.drop owner.length
      let repo := (rest2.drop 1).takeWhile (fun x => !(x == '/'))
      if !owner.isEmpty && pyStartsWith (cs "/") rest2 && !repo.isEmpty then
        some (owner, repo)
      else parseSpaces rest
    else parseSpaces rest

/-- HuggingFaceProvider.get_source_identifier:
huggingface/<owner>/<repo> when the URL carries /spaces/ path segments,
bare "huggingface" otherwise. -/
def hf_get_source_identifier (u : List Char) : List Char :=
  match parseSpaces u with
  | some (owner, repo) => cs "huggingface/" ++ owner ++ cs "/" ++ repo
  | none => cs "huggingface"

/-- HuggingFaceProvider.match: http(s), hostname huggingface.co,
contains /spaces/, ends in /skill.md case-insensitively. -/
def hf_match (u : List Char) : ProviderMatch :=
  if !(pyStartsWith (cs "http://") u) && !(pyStartsWith (cs "https://") u) then
    { matched := false }
  else
    match urlparse u with
    | .error _ => { matched := false }
    | .ok parts =>
      if (hostnameOf parts.netloc).getD [] != cs "huggingface.co" then
        { matched := false }
      else if !(pyContains (cs "/spaces/") u) then
        { matched := false }
      else if !(pyEndsWith (cs "/skill.md") (pyLower u)) then
        { matched := false }
      else
        { matched := true
        , source_identifier := some (hf_get_source_identifier u) }

/-- Python str.replace for a fixed pattern: replaces non-overlapping
occurrences left to right. -/
def pyReplace (pat rep : List Char) : List Char → List Char
  | [] => []
  | c :: rest =>
    if !pat.isEmpty && pyStartsWith pat (c :: rest) then
      rep ++ pyReplace pat rep (rest.drop (pat.length - 1))
    else
      c :: pyReplace pat rep rest
termination_by l => l.length
decreasing_by
· simp only [List.length_drop, List.length_cons]
  omega
· simp only [List.length_cons]
  omega

/-- HuggingFaceProvider.to_raw_url: url.replace of /blob/ with /raw/. -/
def hf_to_raw_url (u : List Char) : List Char :=
  pyReplace (cs "/blob/") (cs "/raw/") u

/-- MintlifyProvider.to_raw_url is the identity. -/
def mintlify_to_raw_url (u : List Char) : List Char := u

/-- WellKnownProvider.get_source_identifier: the hostname, or the whole
URL when there is none (or parsing raises). -/
def wellknown_get_source_identifier (u : List Char) : List Char :=
  match urlparse u with
  | .ok parts => (hostnameOf parts.netloc).getD u
  | .error _ => u

/-- WellKnownProvider.match: http(s), hostname not an excluded git host,
not a direct /skill.md link, not a .git URL. -/
def wellknown_match (u : List Char) : ProviderMatch :=
  if !(pyStartsWith (cs "http://") u) && !(pyStartsWith (cs "https://") u) then
    { matched := false }
  else
    match urlparse u with
    | .error _ => { matched := false }
    | .ok parts =>
      if EXCLUDED_HOSTS.contains ((hostnameOf parts.netloc).getD []) then
        { matched := false }
      else if pyEndsWith (cs "/skill.md") (pyLower u) then
        { matched := false }
      else if pyEndsWith (cs ".git") u then
        { matched := false }
      else
        { matched := true
        , source_identifier := some (wellknown_get_source_identifier u) }

/- ========== provider registry and top-level dispatch ========== -/

/-- The three provider singletons instantiated in providers/__init__.py. -/
inductive Provider where
  | huggingface
  | mintlify
  | wellknown
deriving DecidableEq

/-- HostProvider.id of each provider. -/
def providerId : Provider → List Char
  | .huggingface => cs "huggingface"
  | .mintlify => cs "mintlify"
  | .wellknown => cs "well-known"

/-- HostProvider.match dispatch. -/
def providerMatch : Provider → List Char → ProviderMatch
  | .huggingface => hf_match
  | .mintlify => mintlify_match
  | .wellknown => wellknown_match

/-- ProviderRegistry.register: a duplicate provider id is a no-op,
otherwise the provider is appended. -/
def registerProvider (regs : List Provider) (p : Provider) : List Provider :=
  if regs.any (fun q => providerId q == providerId p) then regs else regs ++ [p]

/-- The module-level registry built at import time: huggingface is
registered, then mintlify; WellKnownProvider deliberately is not. -/
def defaultRegistry : List Provider :=
  registerProvider (registerProvider [] .huggingface) .mintlify

/-- ProviderRegistry.find_provider: the first registered provider whose
match succeeds. -/
def find_provider (regs : List Provider) (u : List Char) : Option Provider :=
  regs.find? (fun p => (providerMatch p u).matched)

/-- providers.fetch_remote_skill: try the registry, then fall back to the
well-known provider when its match succeeds. What each provider's
fetch_skill would return over the network is the oracle `fetchOf`. -/
def fetch_remote_skill {α : Type} (fetchOf : Provider → Option α)
    (u : List Char) : Option α :=
  match find_provider defaultRegistry u with
  | some p => fetchOf p
  | none =>
    if (wellknown_match u).matched then fetchOf .wellknown else none

/- ========== provider fetch pipeline (C2) ========== -/

/-- The outcome of an httpx GET as fetch_skill observes it: a raised
httpx.RequestError, or a response with status code and body text. -/
inductive HttpResult where
  | netError
  | success (status : Int) (body : String)

/-- The outcome of frontmatter.loads on a response body: a parsed
metadata dict, or an exception of some Python class (the
frontmatter/yaml stack is third-party code, so its possible exception
classes are left open and quantified over). -/
inductive FMOutcome where
  | raise (e : PyExc)
  | post (meta : List (String × PyVal))

/-- providers.base.RemoteSkill; name, description and install_name keep
the raw front-matter values, exactly as the Python dataclass stores
them. -/
structure RemoteSkill where
  name : PyVal
  description : PyVal
  content : String
  install_name : PyVal
  source_url : List Char
  metadata : Option (List (String × PyVal))

/-- Python `v.lower().replace(' ', '-')` on a front-matter value; string
methods raise AttributeError on a non-string value. -/
def pyLowerReplace : PyVal → Except PyExc PyVal
  | .pstr s => .ok (.pstr (String.mk (pyReplace (cs " ") (cs "-") (pyLower s.toList))))
  | _ => .error .attributeError

/-- The metadata dict rebuilt by fetch_skill: every front-matter key but
name and description. -/
def fetchMetadata (meta : List (String × PyVal)) : List (String × PyVal) :=
  meta.filter (fun p => p.1 != "name" && p.1 != "description")

/-- The install-name override read from a nested metadata mapping under
`key` (Python: `if 'metadata' in post.metadata: meta = ...get('metadata', ...);
if isinstance(meta, dict): install_name = meta.get(key)`), None
otherwise. -/
def installFromMetadata (key : String) (meta : List (String × PyVal)) : PyVal :=
  match dget meta "metadata" with
  | some (.pdict md) => (dget md key).getD .pnone
  | _ => .pnone

/-- The try-block body of HuggingFaceProvider.fetch_skill, over the HTTP
and front-matter oracles. -/
def hf_fetch_skill_body (u : List Char) (http : List Char → HttpResult)
    (fm : String → FMOutcome) : Except PyExc (Option RemoteSkill) :=
  match http (hf_to_raw_url u) with
  | .netError => .error .requestError
  | .success status body =>
    if status ≠ 200 then .ok none
    else
      match fm body with
      | .raise e => .error e
      | .post meta =>
        let name := (dget meta "name").getD .pnone
        let description := (dget meta "description").getD .pnone
        if !(truthy name) || !(truthy description) then .ok none
        else
          let inst0 := installFromMetadata "install-name" meta
          let instE : Except PyExc PyVal :=
            if truthy inst0 then .ok inst0
            else
              match parseSpaces u with
              | some pr => .ok (.pstr (String.mk pr.2))
              | none => pyLowerReplace name
          match instE with
          | .error e => .error e
          | .ok install_name =>
            .ok (some
              { name := name
              , description := description
              , content := body
              , install_name := install_name
              , source_url := u
              , metadata :=
                  if (fetchMetadata meta).isEmpty then none
                  else some (fetchMetadata meta) })

/-- The Python classes caught by fetch_skill's except clause:
(httpx.RequestError, ValueError). -/
def fetchCaught (e : PyExc) : Bool := e == PyExc.requestError || isValueError e

/-- HuggingFaceProvider.fetch_skill: the body under
`except (httpx.RequestError, ValueError)`, which yields None. -/
def hf_fetch_skill (u : List Char) (http : List Char → HttpResult)
    (fm : String → FMOutcome) : Except PyExc (Option RemoteSkill) :=
  match hf_fetch_skill_body u http fm with
  | .ok r => .ok r
  | .error e => if fetchCaught e then .ok none else .error e

/-- The try-block body of MintlifyProvider.fetch_skill: as for
HuggingFace but fetching the URL itself, reading the `mintlify-proj`
override, and always deriving the fallback install name from the display
name. -/
def mintlify_fetch_skill_body (u : List Char) (http : List Char → HttpResult)
    (fm : String → FMOutcome) : Except PyExc (Option RemoteSkill) :=
  match http u with
  | .netError => .error .requestError
  | .success status body =>
    if status ≠ 200 then .ok none
    else
      match fm body with
      | .raise e => .error e
      | .post meta =>
        let name := (dget meta "name").getD .pnone
        let description := (dget meta "description").getD .pnone
        if !(truthy name) || !(truthy description) then .ok none
        else
          let inst0 := installFromMetadata "mintlify-proj" meta
          let instE : Except PyExc PyVal :=
            if truthy inst0 then .ok inst0 else pyLowerReplace name
          match instE with
          | .error e => .error e
          | .ok install_name =>
            .ok (some
              { name := name
              , description := description
              , content := body
              , install_name := install_name
              , source_url := u
              , metadata :=
                  if (fetchMetadata meta).isEmpty then none
                  else some (fetchMetadata meta) })

/-- MintlifyProvider.fetch_skill: the body under
`except (httpx.RequestError, ValueError)`. -/
def mintlify_fetch_skill (u : List Char) (http : List Char → HttpResult)
    (fm : String → FMOutcome) : Except PyExc (Option RemoteSkill) :=
  match mintlify_fetch_skill_body u http fm with
  | .ok r => .ok r
  | .error e => if fetchCaught e then .ok none else .error e

/- ========== well-known provider (C6, C8) ========== -/

/-- wellknown.WellKnownSkillEntry, with values as parsed from the
index.json entries. -/
structure WellKnownSkillEntry where
  name : PyVal
  description : PyVal
  files : PyVal

/-- wellknown.WellKnownIndex. -/
structure WellKnownIndex where
  skills : List WellKnownSkillEntry

/-- wellknown.WellKnownProvider.fetch_all_skills: fetch the index, give
up empty when it is absent or lists no skills, otherwise gather
fetch_skill_by_entry over every entry in index order (asyncio.gather
returns results in the order of its arguments) and keep the non-None
results. `index` is the fetch_index outcome and `fetchEntry` the
fetch_skill_by_entry outcome per entry, both network oracles. -/
def fetch_all_skills {σ : Type} (index : Option WellKnownIndex)
    (fetchEntry : WellKnownSkillEntry → Option σ) : List σ :=
  match index with
  | none => []
  | some idx =>
    if idx.skills.isEmpty then []
    else (idx.skills.map fetchEntry).filterMap id

/-- Python str.rstrip('/'). -/
def rstripSlash (l : List Char) : List Char :=
  (l.reverse.dropWhile (fun c => c == '/')).reverse

/-- The well-known path marker. -/
def wkMarker : List Char := cs "/.well-known/skills"

/-- str.find of the marker: splits the string at the end of the FIRST
occurrence, returning what precedes the occurrence and what follows it;
none when the marker does not occur. -/
def splitAtMarker : List Char → Option (List Char × List Char)
  | [] => none
  | c :: rest =>
    if pyStartsWith wkMarker (c :: rest) then
      some ([], (c :: rest).drop wkMarker.length)
    else
      match splitAtMarker rest with
      | some (pre, post) => some (c :: pre, post)
      | none => none

/-- wellknown.WellKnownProvider._get_well_known_base. When the rstripped
path already contains the marker, truncate at the end of its first
occurrence; otherwise append the marker to the rstripped path. The
urlparse ValueError propagates (the function has no try block). -/
def get_well_known_base (u : List Char) : Except PyExc (List Char) :=
  match urlparse u with
  | .error e => .error e
  | .ok parts =>
    let path := rstripSlash parts.path
    match splitAtMarker path with
    | some (pre, _) =>
      .ok (parts.scheme ++ cs "://" ++ parts.netloc ++ (pre ++ wkMarker))
    | none =>
      .ok (parts.scheme ++ cs "://" ++ parts.netloc ++ (path ++ wkMarker))

/- ========== spec-side predicates (refinement claims C4, C5) ========== -/

/-- C4's reading of the specification sentence for MintlifyProvider.match,
written from the spec's words: an http(s) URL, ending case-insensitively
in /skill.md, whose hostname is none of the excluded git hosts. The URL
must parse (a URL whose netloc fails to parse has no hostname); a parsed
URL without a hostname satisfies the host condition vacuously, exactly as
the source's `parsed.hostname or ''` comparison does. -/
def mintlifyMatchSpec (u : List Char) : Prop :=
  (pyStartsWith (cs "http://") u = true ∨ pyStartsWith (cs "https://") u = true) ∧
  pyEndsWith (cs "/skill.md") (pyLower u) = true ∧
  ∃ parts, urlparse u = .ok parts ∧
    ∀ h, hostnameOf parts.netloc = some h → h ∉ EXCLUDED_HOSTS

/-- C5's reading of the specification sentence for
HuggingFaceProvider.match: an http(s) URL whose hostname is
huggingface.co, containing /spaces/, and ending case-insensitively in
/skill.md. -/
def hfMatchSpec (u : List Char) : Prop :=
  (pyStartsWith (cs "http://") u = true ∨ pyStartsWith (cs "https://") u = true) ∧
  (∃ parts, urlparse u = .ok parts ∧
    hostnameOf parts.netloc = some (cs "huggingface.co")) ∧
  pyContains (cs "/spaces/") u = true ∧
  pyEndsWith (cs "/skill.md") (pyLower u) = true

/- ===================== helper lemmas ===================== -/

/-- The source's excluded-host test over `parsed.hostname or ''` fails
exactly when every hostname the URL has lies outside EXCLUDED_HOSTS. -/
theorem excluded_not_contains_iff (nl : List Char) :
    (EXCLUDED_HOSTS.contains ((hostnameOf nl).getD [])) = false ↔
      (∀ h, hostnameOf nl = some h → h ∉ EXCLUDED_HOSTS) := by
  cases hh : hostnameOf nl with
  | none =>
    constructor
    · intro _ h hsome
      exact absurd hsome (by simp)
    · intro _
      decide
  | some h =>
    simp only [Option.getD_some, Option.some.injEq]
    constructor
    · intro hc h2 he
      subst he
      intro hmem
      simp [List.contains, hmem] at hc
    · intro hall
      have hnm := hall h rfl
      simp [List.contains, hnm]

/-- The source's hostname comparison against huggingface.co over
`parsed.hostname or ''` succeeds exactly when the hostname is present and
equal to huggingface.co. -/
theorem hostGetD_eq_hf_iff (nl : List Char) :
    ((((hostnameOf nl).getD []) != cs "huggingface.co") = false) ↔
      hostnameOf nl = some (cs "huggingface.co") := by
  cases hh : hostnameOf nl with
  | none =>
    simp only [Option.getD_none]
    decide
  | some h =>
    simp only [Option.getD_some, Option.some.injEq]
    simp [bne]

theorem dget_dset_self {α : Type} (d : List (String × α)) (k : String) (v : α) :
    dget (dset d k v) k = some v := by
  induction d with
  | nil => simp [dget, dset]
  | cons p rest ih =>
    by_cases h : p.1 = k
    · simp [dget, dset, h]
    · simpa [dget, dset, h] using ih

theorem dget_dset_ne {α : Type} (d : List (String × α)) (k k1 : String) (v : α)
    (h : k1 ≠ k) : dget (dset d k v) k1 = dget d k1 := by
  induction d with
  | nil => simp [dget, dset, Ne.symm h]
  | cons p rest ih =>
    by_cases hp : p.1 = k
    · simp [dget, dset, hp, Ne.symm h]
    · by_cases hq : p.1 = k1
      · simp [dget, dset, hp, hq, h]
      · simpa [dget, dset, hp, hq] using ih

theorem dget_ddel_self {α : Type} (d : List (String × α)) (k : String) :
    dget (ddel d k) k = none := by
  induction d with
  | nil => simp [dget, ddel]
  | cons p rest ih =>
    by_cases h : p.1 = k
    · simpa [dget, ddel, List.filter_cons, h] using ih
    · simpa [dget, ddel, List.filter_cons, h] using ih

theorem dget_ddel_ne {α : Type} (d : List (String × α)) (k k1 : String)
    (h : k1 ≠ k) : dget (ddel d k) k1 = dget d k1 := by
  induction d with
  | nil => simp [dget, ddel]
  | cons p rest ih =>
    by_cases hp : p.1 = k
    · simpa [dget, ddel, List.filter_cons, hp, Ne.symm h] using ih
    · by_cases hq : p.1 = k1
      · simp [dget, ddel, List.filter_cons, hp, hq, h]
      · simpa [dget, ddel, List.filter_cons, hp, hq] using ih

/-- If MintlifyProvider.match succeeds, the URL ends (case-insensitively)
in /skill.md. -/
theorem mintlify_matched_endswith (u : List Char)
    (hm : (mintlify_match u).matched = true) :
    pyEndsWith (cs "/skill.md") (pyLower u) = true := by
  unfold mintlify_match at hm
  split at hm
  · simp at hm
  · split at hm
    · simp at hm
    · rename_i hc
      simpa using hc

/-- If WellKnownProvider.match succeeds, the URL does not end
(case-insensitively) in /skill.md. -/
theorem wellknown_matched_not_endswith (u : List Char)
    (hm : (wellknown_match u).matched = true) :
    pyEndsWith (cs "/skill.md") (pyLower u) = false := by
  unfold wellknown_match at hm
  split at hm
  · simp at hm
  · split at hm
    · simp at hm
    · split at hm
      · simp at hm
      · split at hm
        · simp at hm
        · rename_i hc
          simpa using hc

/- ===================== claim theorems (lock store) ===================== -/

/-- C1 (code-bug evidence): a lock file whose contents parse as the JSON
array `[]` drives read_skill_lock into an uncaught AttributeError (Python
calls `.get` on a list, and AttributeError is not among the caught
classes), instead of the fresh empty lock file the specification promises
for corrupt lock data. -/
theorem C1_read_skill_lock_raises_on_json_array :
    read_skill_lock (.value (.plist [])) = .error .attributeError := rfl

/-- C7: add_skill_to_lock upserts by name. Whenever the read succeeds, the
call writes a lock file whose entry under the given name carries the given
source fields, keeps the pre-existing installed_at timestamp when the name
was already present (and uses the current time for a new name), always
refreshes updated_at to the current time, and leaves every other name's
entry unchanged. -/
theorem C7_add_skill_to_lock_upsert (st : LockFileState)
    (now skill_name source source_type source_url skill_folder_hash : String)
    (skill_path : Option String) (lock : SkillLockFile)
    (h : read_skill_lock st = .ok lock) :
    ∃ lock2,
      add_skill_to_lock st now skill_name source source_type source_url
        skill_folder_hash skill_path = .ok lock2 ∧
      dget lock2.skills skill_name = some
        { source := .pstr source
        , source_type := .pstr source_type
        , source_url := .pstr source_url
        , skill_folder_hash := .pstr skill_folder_hash
        , installed_at :=
            match dget lock.skills skill_name with
            | some e => e.installed_at
            | none => .pstr now
        , updated_at := .pstr now
        , skill_path :=
            match skill_path with
            | some p => .pstr p
            | none => .pnone } ∧
      (∀ k, k ≠ skill_name → dget lock2.skills k = dget lock.skills k) := by
  have hrw : add_skill_to_lock st now skill_name source source_type source_url
      skill_folder_hash skill_path =
      .ok { lock with skills := dset lock.skills skill_name (mkLockEntry now source source_type source_url skill_folder_hash skill_path (dget lock.skills skill_name)) } := by
    unfold add_skill_to_lock
    rw [h]
  exact ⟨_, hrw, dget_dset_self _ _ _, fun k hk => dget_dset_ne _ _ _ _ hk⟩

/-- Witness for C7 at a concrete state: an absent lock file reads as the
empty lock, and installing "find-skills" stores both timestamps at the
current time. -/
theorem C7_add_skill_to_lock_upsert_witness :
    ∃ lock2,
      add_skill_to_lock (.readFail .fileNotFoundError) "2026-01-01T00:00:00"
        "find-skills" "vercel-labs/agent-skills" "github"
        "https://github.com/vercel-labs/agent-skills.git" "abc"
        (some "skills/find-skills") = .ok lock2 ∧
      dget lock2.skills "find-skills" = some
        { source := .pstr "vercel-labs/agent-skills"
        , source_type := .pstr "github"
        , source_url := .pstr "https://github.com/vercel-labs/agent-skills.git"
        , skill_folder_hash := .pstr "abc"
        , installed_at :=
            match dget emptyLockFile.skills "find-skills" with
            | some e => e.installed_at
            | none => .pstr "2026-01-01T00:00:00"
        , updated_at := .pstr "2026-01-01T00:00:00"
        , skill_path :=
            match some "skills/find-skills" with
            | some p => .pstr p
            | none => .pnone } ∧
      (∀ k, k ≠ "find-skills" →
        dget lock2.skills k = dget emptyLockFile.skills k) :=
  C7_add_skill_to_lock_upsert (.readFail .fileNotFoundError)
    "2026-01-01T00:00:00" "find-skills" "vercel-labs/agent-skills" "github"
    "https://github.com/vercel-labs/agent-skills.git" "abc"
    (some "skills/find-skills") emptyLockFile rfl

/-- C10: remove_skill_from_lock returns True and writes back the lock with
exactly the named entry deleted when the name is present; when the name is
absent it returns False and writes nothing (the persisted file is
untouched, modelled by the `none` written-lock component). -/
theorem C10_remove_skill_from_lock_spec (st : LockFileState)
    (skill_name : String) (lock : SkillLockFile)
    (h : read_skill_lock st = .ok lock) :
    (dmem lock.skills skill_name = true →
      remove_skill_from_lock st skill_name =
        .ok (true, some { lock with skills := ddel lock.skills skill_name }) ∧
      dget (ddel lock.skills skill_name) skill_name = none ∧
      (∀ k, k ≠ skill_name →
        dget (ddel lock.skills skill_name) k = dget lock.skills k)) ∧
    (dmem lock.skills skill_name = false →
      remove_skill_from_lock st skill_name = .ok (false, none)) := by
  constructor
  · intro hm
    refine ⟨?_, dget_ddel_self _ _, fun k hk => dget_ddel_ne _ _ _ hk⟩
    unfold remove_skill_from_lock
    rw [h]
    simp [hm]
  · intro hm
    unfold remove_skill_from_lock
    rw [h]
    simp [hm]

/-- Witness for C10 at a concrete state: a version-3 lock file holding the
single skill "demo"; removing "demo" returns True and rewrites the lock
with that entry deleted. -/
theorem C10_remove_skill_from_lock_spec_witness :
    remove_skill_from_lock demoLockState "demo" =
      .ok (true, some { demoLock with skills := ddel demoLock.skills "demo" }) :=
  (((C10_remove_skill_from_lock_spec demoLockState "demo" demoLock rfl).1)
    (by decide)).1

/- ============ claim theorems (registry dispatch, C3 and C9) ============ -/

/-- C9: the Mintlify matcher and the well-known matcher never both accept
a URL: Mintlify requires a case-insensitive /skill.md suffix and the
well-known matcher rejects exactly such URLs. -/
theorem C9_mintlify_wellknown_disjoint (u : List Char) :
    ((mintlify_match u).matched && (wellknown_match u).matched) = false := by
  cases hmm : (mintlify_match u).matched with
  | false => simp
  | true =>
    cases hw : (wellknown_match u).matched with
    | false => simp
    | true =>
      have h1 := mintlify_matched_endswith u hmm
      have h2 := wellknown_matched_not_endswith u hw
      rw [h1] at h2
      exact absurd h2 (by simp)

/-- C3: fetch_remote_skill consults the registry in registration order —
huggingface, then mintlify, with the well-known provider deliberately
absent from the default registry — delegating to the first whose match
succeeds; with no registry match it falls back to the well-known provider
exactly when that provider's match succeeds, and yields nothing
otherwise. -/
theorem C3_fetch_remote_skill_dispatch :
    defaultRegistry = [Provider.huggingface, Provider.mintlify] ∧
    ∀ (α : Type) (fetchOf : Provider → Option α) (u : List Char),
      fetch_remote_skill fetchOf u =
        if (hf_match u).matched then fetchOf .huggingface
        else if (mintlify_match u).matched then fetchOf .mintlify
        else if (wellknown_match u).matched then fetchOf .wellknown
        else none := by
  have hreg : defaultRegistry = [Provider.huggingface, Provider.mintlify] := rfl
  refine ⟨hreg, ?_⟩
  intro α fetchOf u
  unfold fetch_remote_skill find_provider
  rw [hreg]
  by_cases h1 : (hf_match u).matched = true <;>
    by_cases h2 : (mintlify_match u).matched = true <;>
      simp [List.find?, providerMatch, h1, h2]

/- ============ claim theorems (provider matchers, C4 and C5) ============ -/

/-- Boolean characterization of MintlifyProvider.match. -/
theorem mintlify_matched_eq (u : List Char) :
    (mintlify_match u).matched =
      ((pyStartsWith (cs "http://") u || pyStartsWith (cs "https://") u) &&
        pyEndsWith (cs "/skill.md") (pyLower u) &&
        (match urlparse u with
         | .ok parts => !(EXCLUDED_HOSTS.contains ((hostnameOf parts.netloc).getD []))
         | .error _ => false)) := by
  unfold mintlify_match
  cases hp : urlparse u <;>
    by_cases h1 : pyStartsWith (cs "http://") u = true <;>
      by_cases h2 : pyStartsWith (cs "https://") u = true <;>
        by_cases h3 : pyEndsWith (cs "/skill.md") (pyLower u) = true <;>
          simp [h1, h2, h3, hp] <;>
            (try (split <;> simp_all))

/-- MintlifyProvider.match accepts exactly the URLs of the C4 spec
sentence. -/
theorem mintlify_match_iff (u : List Char) :
    (mintlify_match u).matched = true ↔ mintlifyMatchSpec u := by
  rw [mintlify_matched_eq]
  unfold mintlifyMatchSpec
  cases hp : urlparse u with
  | error e => simp [hp]
  | ok parts =>
    simp only [hp, Bool.and_eq_true, Bool.or_eq_true, Bool.not_eq_true']
    rw [excluded_not_contains_iff]
    constructor
    · rintro ⟨⟨hs, he⟩, hx⟩
      exact ⟨hs, he, parts, rfl, hx⟩
    · rintro ⟨hs, he, parts2, hpp, hx⟩
      injection hpp with hq
      subst hq
      exact ⟨⟨hs, he⟩, hx⟩

/-- On success, MintlifyProvider.match reports
mintlify_get_source_identifier as the source identifier. -/
theorem mintlify_match_sid (u : List Char)
    (hm : (mintlify_match u).matched = true) :
    (mintlify_match u).source_identifier =
      some (mintlify_get_source_identifier u) := by
  unfold mintlify_match at hm ⊢
  by_cases h1 : pyStartsWith (cs "http://") u = true <;>
    by_cases h2 : pyStartsWith (cs "https://") u = true <;>
      by_cases h3 : pyEndsWith (cs "/skill.md") (pyLower u) = true <;>
        cases hp : urlparse u <;>
          simp [h1, h2, h3, hp] at hm ⊢ <;>
            (try (split at hm <;> simp_all))

/-- C4: MintlifyProvider.match succeeds exactly on http(s) URLs ending
case-insensitively in /skill.md whose hostname is not an excluded git
host; on a match with a hostname the source identifier is
mintlify/<host>, and to_raw_url is the identity (the URL is already
raw). -/
theorem C4_mintlify_match_spec :
    (∀ u, (mintlify_match u).matched = true ↔ mintlifyMatchSpec u) ∧
    (∀ u parts h, urlparse u = .ok parts → hostnameOf parts.netloc = some h →
      (mintlify_match u).matched = true →
      (mintlify_match u).source_identifier = some (cs "mintlify/" ++ h)) ∧
    (∀ u, mintlify_to_raw_url u = u) := by
  refine ⟨mintlify_match_iff, ?_, fun u => rfl⟩
  intro u parts h hp hh hm
  rw [mintlify_match_sid u hm]
  unfold mintlify_get_source_identifier
  rw [hp]
  simp [hh]

/-- Witness for C4 at concrete inputs: a documentation-site skill URL
matches with identifier mintlify/docs.example.com, and an excluded-host
URL does not match. -/
theorem C4_mintlify_match_spec_witness :
    (mintlify_match (cs "https://docs.example.com/api/skill.md")).source_identifier =
      some (cs "mintlify/" ++ cs "docs.example.com") :=
  C4_mintlify_match_spec.2.1 (cs "https://docs.example.com/api/skill.md")
    { scheme := cs "https", netloc := cs "docs.example.com", path := cs "/api/skill.md" }
    (cs "docs.example.com") rfl (by decide) (by decide)

/-- Boolean characterization of HuggingFaceProvider.match. -/
theorem hf_matched_eq (u : List Char) :
    (hf_match u).matched =
      ((pyStartsWith (cs "http://") u || pyStartsWith (cs "https://") u) &&
        (match urlparse u with
         | .ok parts => !(((hostnameOf parts.netloc).getD []) != cs "huggingface.co")
         | .error _ => false) &&
        pyContains (cs "/spaces/") u &&
        pyEndsWith (cs "/skill.md") (pyLower u)) := by
  unfold hf_match
  cases hp : urlparse u <;>
    by_cases h1 : pyStartsWith (cs "http://") u = true <;>
      by_cases h2 : pyStartsWith (cs "https://") u = true <;>
        by_cases h3 : pyContains (cs "/spaces/") u = true <;>
          by_cases h4 : pyEndsWith (cs "/skill.md") (pyLower u) = true <;>
            simp [h1, h2, h3, h4, hp] <;>
              (try (split <;> simp_all))

/-- HuggingFaceProvider.match accepts exactly the URLs of the C5 spec
sentence. -/
theorem hf_match_iff (u : List Char) :
    (hf_match u).matched = true ↔ hfMatchSpec u := by
  rw [hf_matched_eq]
  unfold hfMatchSpec
  cases hp : urlparse u with
  | error e => simp [hp]
  | ok parts =>
    simp only [hp, Bool.and_eq_true, Bool.or_eq_true, Bool.not_eq_true']
    rw [hostGetD_eq_hf_iff]
    constructor
    · rintro ⟨⟨⟨hs, hh⟩, hc⟩, he⟩
      exact ⟨hs, ⟨parts, rfl, hh⟩, hc, he⟩
    · rintro ⟨hs, ⟨parts2, hpp, hh⟩, hc, he⟩
      injection hpp with hq
      subst hq
      exact ⟨⟨⟨hs, hh⟩, hc⟩, he⟩

/-- On success, HuggingFaceProvider.match reports
hf_get_source_identifier as the source identifier. -/
theorem hf_match_sid (u : List Char)
    (hm : (hf_match u).matched = true) :
    (hf_match u).source_identifier = some (hf_get_source_identifier u) := by
  unfold hf_match at hm ⊢
  by_cases h1 : pyStartsWith (cs "http://") u = true <;>
    by_cases h2 : pyStartsWith (cs "https://") u = true <;>
      by_cases h3 : pyContains (cs "/spaces/") u = true <;>
        by_cases h4 : pyEndsWith (cs "/skill.md") (pyLower u) = true <;>
          cases hp : urlparse u <;>
            simp [h1, h2, h3, h4, hp] at hm ⊢ <;>
              (try (split at hm <;> simp_all))

/-- pyReplace leaves a string without any occurrence of the pattern
unchanged. -/
theorem pyReplace_no_occurrence (pat rep l : List Char)
    (h : ¬ pat <:+: l) : pyReplace pat rep l = l := by
  induction l with
  | nil => simp [pyReplace]
  | cons c rest ih =>
    have hnp : ¬ (pyStartsWith pat (c :: rest) = true) := by
      intro hpre
      exact h (List.IsPrefix.isInfix (by simpa [pyStartsWith] using hpre))
    have hni : ¬ pat <:+: rest := fun hi => h (List.infix_cons hi)
    rw [pyReplace]
    simp [hnp, ih hni]

/-- pyReplace rewrites the single occurrence of the pattern: when the
pattern occurs nowhere in `a` (not even overlapping the occurrence, which
the `a ++ pat.take (pat.length - 1)` guard expresses) and nowhere in `b`,
the occurrence between them is replaced and everything else is kept. -/
theorem pyReplace_single (pat rep : List Char) (hpat : pat ≠ [])
    (b : List Char) (hb : ¬ pat <:+: b) :
    ∀ a : List Char, ¬ pat <:+: (a ++ pat.take (pat.length - 1)) →
      pyReplace pat rep (a ++ pat ++ b) = a ++ rep ++ b := by
  intro a
  induction a with
  | nil =>
    intro _
    obtain ⟨c, pt, hcp⟩ : ∃ c pt, pat = c :: pt := by
      cases pat with
      | nil => exact absurd rfl hpat
      | cons c pt => exact ⟨c, pt, rfl⟩
    subst hcp
    have hsw : pyStartsWith (c :: pt) (c :: (pt ++ b)) = true := by
      simp [pyStartsWith]
    have hshape : ([] : List Char) ++ (c :: pt) ++ b = c :: (pt ++ b) := by simp
    rw [hshape, pyReplace]
    have hdrop : (pt ++ b).drop ((c :: pt).length - 1) = b := by
      simp [List.drop_left']
    simp [hsw, hdrop, pyReplace_no_occurrence _ _ _ hb]
  | cons c a2 ih =>
    intro ha
    have hstep : ¬ (pyStartsWith pat ((c :: a2) ++ pat ++ b) = true) := by
      intro hpre
      apply ha
      have hpre2 : pat <+: (c :: a2) ++ pat ++ b := by
        simpa [pyStartsWith] using hpre
      have htp : pat.take (pat.length - 1) <+: pat := List.take_prefix _ _
      have hs1 : (c :: a2) ++ pat.take (pat.length - 1) <+: (c :: a2) ++ pat :=
        (List.prefix_append_right_inj _).2 htp
      have hs2 : (c :: a2) ++ pat <+: (c :: a2) ++ pat ++ b :=
        List.prefix_append _ _
      have hlen : pat.length ≤ ((c :: a2) ++ pat.take (pat.length - 1)).length := by
        have hp1 : 1 ≤ pat.length := List.length_pos.mpr hpat
        simp [List.length_append, List.length_take]
        omega
      exact (List.prefix_of_prefix_length_le hpre2 (hs1.trans hs2) hlen).isInfix
    have hshape : (c :: a2) ++ pat ++ b = c :: (a2 ++ pat ++ b) := by simp
    have ha2 : ¬ pat <:+: (a2 ++ pat.take (pat.length - 1)) := by
      intro hi
      exact ha (List.infix_cons hi)
    rw [hshape, pyReplace]
    have hstep2 : ¬ pyStartsWith pat (c :: (a2 ++ (pat ++ b))) = true := by
      simpa [List.append_assoc] using hstep
    simp [hstep2]
    rw [← List.append_assoc, ← List.append_assoc]
    exact ih ha2

/-- C5: HuggingFaceProvider.match succeeds exactly on http(s) URLs with
hostname huggingface.co containing /spaces/ and ending case-insensitively
in /skill.md; to_raw_url rewrites /blob/ to /raw/; a matched URL whose
path carries /spaces/<owner>/<repo> reports source identifier
huggingface/<owner>/<repo>. -/
theorem C5_hf_match_spec :
    (∀ u, (hf_match u).matched = true ↔ hfMatchSpec u) ∧
    (∀ a b, ¬ cs "/blob/" <:+: (a ++ cs "/blob") → ¬ cs "/blob/" <:+: b →
      hf_to_raw_url (a ++ cs "/blob/" ++ b) = a ++ cs "/raw/" ++ b) ∧
    (∀ u owner repo, parseSpaces u = some (owner, repo) →
      (hf_match u).matched = true →
      (hf_match u).source_identifier =
        some (cs "huggingface/" ++ owner ++ cs "/" ++ repo)) := by
  refine ⟨hf_match_iff, ?_, ?_⟩
  · intro a b ha hb
    have hshape : (cs "/blob/").take ((cs "/blob/").length - 1) = cs "/blob" := by
      decide
    unfold hf_to_raw_url
    exact pyReplace_single (cs "/blob/") (cs "/raw/") (by decide) b hb a
      (by rw [hshape]; exact ha)
  · intro u owner repo hps hm
    rw [hf_match_sid u hm]
    unfold hf_get_source_identifier
    rw [hps]

/-- Witness for C5 at concrete inputs: the canonical HuggingFace Spaces
blob URL is converted to its raw form. -/
theorem C5_hf_match_spec_witness :
    hf_to_raw_url (cs "https://huggingface.co/spaces/owner/repo" ++ cs "/blob/" ++ cs "main/SKILL.md") =
      cs "https://huggingface.co/spaces/owner/repo" ++ cs "/raw/" ++ cs "main/SKILL.md" :=
  C5_hf_match_spec.2.1 (cs "https://huggingface.co/spaces/owner/repo")
    (cs "main/SKILL.md") (by decide) (by decide)

/- ============ claim theorems (well-known fan-out, C8) ============ -/

/-- C8: fetch_all_skills returns the empty list when the index cannot be
fetched or lists no skills; otherwise it returns exactly the successfully
fetched entries in index order — a failed entry (None) is dropped at the
join point and the remaining entries are unaffected. -/
theorem C8_fetch_all_skills_spec :
    (∀ (σ : Type) (f : WellKnownSkillEntry → Option σ),
      fetch_all_skills none f = []) ∧
    (∀ (σ : Type) (f : WellKnownSkillEntry → Option σ),
      fetch_all_skills (some { skills := [] }) f = []) ∧
    (∀ (σ : Type) (idx : WellKnownIndex) (f : WellKnownSkillEntry → Option σ),
      fetch_all_skills (some idx) f = idx.skills.filterMap f) := by
  refine ⟨fun σ f => rfl, fun σ f => rfl, ?_⟩
  intro σ idx f
  unfold fetch_all_skills
  by_cases he : idx.skills.isEmpty
  · rw [List.isEmpty_iff] at he
    simp [he]
  · simp only [he, if_false, Bool.false_eq_true]
    rw [List.filterMap_map]
    rfl

/- ============ claim theorems (fetch failure semantics, C2) ============ -/

/-- C2 counterexample: a 200 response whose front-matter parse raises an
exception class that is neither httpx.RequestError nor ValueError —
PyYAML's YAMLError, raised by frontmatter.loads on malformed front
matter, derives from Exception directly — escapes fetch_skill as a raised
exception instead of yielding the absent result the claim promises. -/
theorem C2_fetch_skill_counterexample :
    hf_fetch_skill (cs "https://huggingface.co/spaces/o/r/skill.md")
      (fun _ => .success 200 "bad") (fun _ => .raise .yamlError) =
      .error .yamlError := rfl

/-- C2 amended: for both providers and every oracle behaviour, a network
error, a non-200 status, or a parsed document missing a truthy name or
description yields None; an exception raised while parsing the document
yields None exactly when its class falls under the caught pair
(httpx.RequestError, ValueError) — any other exception class propagates
out of fetch_skill. -/
theorem C2_fetch_skill_failures :
    (∀ u fm, hf_fetch_skill u (fun _ => .netError) fm = .ok none) ∧
    (∀ u fm body st, st ≠ 200 →
      hf_fetch_skill u (fun _ => .success st body) fm = .ok none) ∧
    (∀ u body meta, (!(truthy (dgetD meta "name" .pnone)) ||
        !(truthy (dgetD meta "description" .pnone))) = true →
      hf_fetch_skill u (fun _ => .success 200 body) (fun _ => .post meta) = .ok none) ∧
    (∀ u body e, fetchCaught e = true →
      hf_fetch_skill u (fun _ => .success 200 body) (fun _ => .raise e) = .ok none) ∧
    (∀ u body e, fetchCaught e = false →
      hf_fetch_skill u (fun _ => .success 200 body) (fun _ => .raise e) = .error e) ∧
    (∀ u fm, mintlify_fetch_skill u (fun _ => .netError) fm = .ok none) ∧
    (∀ u fm body st, st ≠ 200 →
      mintlify_fetch_skill u (fun _ => .success st body) fm = .ok none) ∧
    (∀ u body meta, (!(truthy (dgetD meta "name" .pnone)) ||
        !(truthy (dgetD meta "description" .pnone))) = true →
      mintlify_fetch_skill u (fun _ => .success 200 body) (fun _ => .post meta) = .ok none) ∧
    (∀ u body e, fetchCaught e = true →
      mintlify_fetch_skill u (fun _ => .success 200 body) (fun _ => .raise e) = .ok none) ∧
    (∀ u body e, fetchCaught e = false →
      mintlify_fetch_skill u (fun _ => .success 200 body) (fun _ => .raise e) = .error e) := by
  refine ⟨fun u fm => rfl, ?_, ?_, ?_, ?_, fun u fm => rfl, ?_, ?_, ?_, ?_⟩
  · intro u fm body st hst
    simp [hf_fetch_skill, hf_fetch_skill_body, hst]
  · intro u body meta hmiss
    simp only [dgetD] at hmiss
    simp [hf_fetch_skill, hf_fetch_skill_body, hmiss]
  · intro u body e hc
    simp [hf_fetch_skill, hf_fetch_skill_body, hc]
  · intro u body e hc
    simp [hf_fetch_skill, hf_fetch_skill_body, hc]
  · intro u fm body st hst
    simp [mintlify_fetch_skill, mintlify_fetch_skill_body, hst]
  · intro u body meta hmiss
    simp only [dgetD] at hmiss
    simp [mintlify_fetch_skill, mintlify_fetch_skill_body, hmiss]
  · intro u body e hc
    simp [mintlify_fetch_skill, mintlify_fetch_skill_body, hc]
  · intro u body e hc
    simp [mintlify_fetch_skill, mintlify_fetch_skill_body, hc]

/-- Witness for the amended C2 at concrete inputs, one per
hypothesis-bearing clause. -/
theorem C2_fetch_skill_failures_witness :
    hf_fetch_skill (cs "https://huggingface.co/spaces/o/r/skill.md")
      (fun _ => .success 404 "x") (fun _ => .post []) = .ok none ∧
    hf_fetch_skill (cs "https://huggingface.co/spaces/o/r/skill.md")
      (fun _ => .success 200 "x") (fun _ => .post [("name", .pstr "n")]) = .ok none ∧
    hf_fetch_skill (cs "https://huggingface.co/spaces/o/r/skill.md")
      (fun _ => .success 200 "x") (fun _ => .raise .valueError) = .ok none ∧
    hf_fetch_skill (cs "https://huggingface.co/spaces/o/r/skill.md")
      (fun _ => .success 200 "x") (fun _ => .raise .attributeError) = .error .attributeError ∧
    mintlify_fetch_skill (cs "https://docs.example.com/skill.md")
      (fun _ => .success 500 "x") (fun _ => .post []) = .ok none ∧
    mintlify_fetch_skill (cs "https://docs.example.com/skill.md")
      (fun _ => .success 200 "x") (fun _ => .post [("description", .pstr "d")]) = .ok none ∧
    mintlify_fetch_skill (cs "https://docs.example.com/skill.md")
      (fun _ => .success 200 "x") (fun _ => .raise .requestError) = .ok none ∧
    mintlify_fetch_skill (cs "https://docs.example.com/skill.md")
      (fun _ => .success 200 "x") (fun _ => .raise .yamlError) = .error .yamlError :=
  ⟨C2_fetch_skill_failures.2.1 _ _ "x" 404 (by decide),
   C2_fetch_skill_failures.2.2.1 _ "x" [("name", .pstr "n")] (by decide),
   C2_fetch_skill_failures.2.2.2.1 _ "x" .valueError (by decide),
   C2_fetch_skill_failures.2.2.2.2.1 _ "x" .attributeError (by decide),
   C2_fetch_skill_failures.2.2.2.2.2.2.1 _ _ "x" 500 (by decide),
   C2_fetch_skill_failures.2.2.2.2.2.2.2.1 _ "x" [("description", .pstr "d")] (by decide),
   C2_fetch_skill_failures.2.2.2.2.2.2.2.2.1 _ "x" .requestError (by decide),
   C2_fetch_skill_failures.2.2.2.2.2.2.2.2.2 _ "x" .yamlError (by decide)⟩

/- ============ well-known base lemmas (C6) ============ -/

theorem takeWhile_all {p : Char → Bool} {l : List Char}
    (h : ∀ c ∈ l, p c = true) : l.takeWhile p = l := by
  induction l with
  | nil => rfl
  | cons c t ih =>
    rw [List.takeWhile_cons_of_pos (h c (by simp))]
    rw [ih (fun x hx => h x (by simp [hx]))]

theorem drop_length_takeWhile (p : Char → Bool) (l : List Char) :
    l.drop (l.takeWhile p).length = l.dropWhile p := by
  induction l with
  | nil => rfl
  | cons c t ih =>
    by_cases hc : p c = true
    · rw [List.takeWhile_cons_of_pos hc, List.dropWhile_cons_of_pos hc]
      simpa using ih
    · rw [List.takeWhile_cons_of_neg hc, List.dropWhile_cons_of_neg hc]
      rfl

theorem wkMarker_no_border : ∀ k, 0 < k → k < wkMarker.length →
    ¬ (wkMarker.drop k <+: wkMarker) := by
  intro k h1 h2
  have hlen : wkMarker.length = 19 := by decide
  rw [hlen] at h2
  interval_cases k <;> decide

theorem prefix_append_indep {pat x : List Char} (y : List Char)
    (hlen : pat.length ≤ x.length) : pat <+: x ++ y ↔ pat <+: x :=
  ⟨fun h => List.prefix_of_prefix_length_le h (List.prefix_append _ _) hlen,
   fun h => h.trans (List.prefix_append _ _)⟩

/-- No occurrence of the marker can start strictly inside `x` when the
marker neither prefixes `x` nor has a nontrivial border to straddle the
boundary with. -/
theorem marker_not_prefix_straddle (x tail : List Char)
    (hnp : ¬ wkMarker <+: x) (hx : x ≠ []) :
    ¬ wkMarker <+: (x ++ wkMarker ++ tail) := by
  intro hpre
  by_cases hlen : wkMarker.length ≤ x.length
  · apply hnp
    have hx2 : (x : List Char) <+: x ++ wkMarker ++ tail :=
      (List.prefix_append x wkMarker).trans (List.prefix_append _ _)
    exact List.prefix_of_prefix_length_le hpre hx2 hlen
  · push_neg at hlen
    have hmid : wkMarker <+: x ++ wkMarker :=
      (prefix_append_indep tail (by simp)).1 hpre
    have heq : wkMarker = x ++ wkMarker.take (wkMarker.length - x.length) := by
      have h1 := List.prefix_iff_eq_take.1 hmid
      rw [List.take_append_eq_append_take] at h1
      rw [List.take_of_length_le (le_of_lt hlen)] at h1
      exact h1
    have hdrop : wkMarker.drop x.length = wkMarker.take (wkMarker.length - x.length) := by
      conv_lhs => rw [heq]
      exact List.drop_left _ _
    have hxpos : 0 < x.length := List.length_pos.mpr hx
    exact wkMarker_no_border x.length hxpos hlen
      (hdrop ▸ List.take_prefix _ _)

theorem splitAtMarker_decomp : ∀ (l pre post : List Char),
    splitAtMarker l = some (pre, post) → l = pre ++ wkMarker ++ post := by
  intro l
  induction l with
  | nil => intro pre post h; simp [splitAtMarker] at h
  | cons c rest ih =>
    intro pre post h
    rw [splitAtMarker] at h
    by_cases hp : pyStartsWith wkMarker (c :: rest) = true
    · simp only [hp, if_true] at h
      injection h with h
      injection h with h1 h2
      subst h1
      subst h2
      have hpre : wkMarker <+: c :: rest := by
        simpa [pyStartsWith] using hp
      obtain ⟨t, ht⟩ := hpre
      rw [List.nil_append, ← ht, List.drop_left]
    · simp only [hp, if_false] at h
      cases hsm : splitAtMarker rest with
      | none => rw [hsm] at h; simp at h
      | some pr =>
        cases pr with
        | mk pre2 post2 =>
          rw [hsm] at h
          injection h with h
          injection h with h1 h2
          subst h1
          subst h2
          rw [ih pre2 post2 hsm]
          simp

theorem splitAtMarker_head (tail : List Char) :
    splitAtMarker (wkMarker ++ tail) = some ([], tail) := by
  have hsh : wkMarker ++ tail = '/' :: (cs ".well-known/skills" ++ tail) := rfl
  have hpre : pyStartsWith wkMarker ('/' :: (cs ".well-known/skills" ++ tail)) = true := by
    rw [← hsh]
    simp [pyStartsWith]
  rw [hsh, splitAtMarker, if_pos hpre, ← hsh, List.drop_left]

theorem splitAtMarker_shift : ∀ (l pre post : List Char),
    splitAtMarker l = some (pre, post) → ∀ tail,
    splitAtMarker (pre ++ wkMarker ++ tail) = some (pre, tail) := by
  intro l
  induction l with
  | nil => intro pre post h tail; simp [splitAtMarker] at h
  | cons c rest ih =>
    intro pre post h tail
    rw [splitAtMarker] at h
    by_cases hp : pyStartsWith wkMarker (c :: rest) = true
    · simp only [hp, if_true] at h
      injection h with h
      injection h with h1 h2
      subst h1
      exact splitAtMarker_head tail
    · simp only [hp, if_false] at h
      cases hsm : splitAtMarker rest with
      | none => rw [hsm] at h; simp at h
      | some pr =>
        cases pr with
        | mk pre2 post2 =>
          rw [hsm] at h
          injection h with h
          injection h with h1 h2
          subst h1
          subst h2
          have hdecomp := splitAtMarker_decomp rest pre2 post2 hsm
          have hgoal : (c :: pre2) ++ wkMarker ++ tail = c :: (pre2 ++ (wkMarker ++ tail)) := by
            simp
          rw [hgoal, splitAtMarker]
          have hnp2 : ¬ pyStartsWith wkMarker (c :: (pre2 ++ (wkMarker ++ tail))) = true := by
            intro hq
            apply hp
            have hq2 : wkMarker <+: ((c :: pre2) ++ wkMarker) ++ tail := by
              have hq1 : wkMarker <+: c :: (pre2 ++ (wkMarker ++ tail)) := by
                simpa [pyStartsWith] using hq
              simpa [List.append_assoc] using hq1
            have hq3 : wkMarker <+: (c :: pre2) ++ wkMarker :=
              (prefix_append_indep tail (by simp; omega)).1 hq2
            have hq4 : wkMarker <+: ((c :: pre2) ++ wkMarker) ++ post2 :=
              (prefix_append_indep post2 (by simp; omega)).2 hq3
            simp only [pyStartsWith, List.isPrefixOf_iff_prefix]
            rw [hdecomp]
            simpa [List.append_assoc] using hq4
          rw [if_neg hnp2]
          have hih := ih pre2 post2 hsm tail
          rw [show pre2 ++ (wkMarker ++ tail) = pre2 ++ wkMarker ++ tail from by simp [List.append_assoc]]
          rw [hih]

theorem splitAtMarker_append_of_none : ∀ (l : List Char),
    splitAtMarker l = none → ∀ tail,
    splitAtMarker (l ++ wkMarker ++ tail) = some (l, tail) := by
  intro l
  induction l with
  | nil => intro _ tail; simpa using splitAtMarker_head tail
  | cons c rest ih =>
    intro h tail
    rw [splitAtMarker] at h
    by_cases hp : pyStartsWith wkMarker (c :: rest) = true
    · simp [hp] at h
    · simp only [hp, if_false] at h
      cases hsm : splitAtMarker rest with
      | some pr => rw [hsm] at h; simp [hsm] at h
      | none =>
        have hgoal : (c :: rest) ++ wkMarker ++ tail = c :: (rest ++ (wkMarker ++ tail)) := by
          simp
        rw [hgoal, splitAtMarker]
        have hnp : ¬ wkMarker <+: (c :: rest) := by
          intro hq
          apply hp
          simpa [pyStartsWith] using hq
        have hst : ¬ pyStartsWith wkMarker (c :: (rest ++ (wkMarker ++ tail))) = true := by
          intro hq
          have hq2 : wkMarker <+: (c :: rest) ++ wkMarker ++ tail := by
            have hq1 : wkMarker <+: c :: (rest ++ (wkMarker ++ tail)) := by
              simpa [pyStartsWith] using hq
            simpa [List.append_assoc] using hq1
          exact marker_not_prefix_straddle (c :: rest) tail hnp (by simp) hq2
        rw [if_neg hst]
        have hih := ih hsm tail
        rw [show rest ++ (wkMarker ++ tail) = rest ++ wkMarker ++ tail from by simp [List.append_assoc]]
        rw [hih]

theorem rstripSlash_prefix (l : List Char) : rstripSlash l <+: l := by
  unfold rstripSlash
  have h := (List.dropWhile_suffix (l := l.reverse) (p := fun c => c == '/')).reverse
  simpa using h

theorem rstrip_marker_fix (pre : List Char) :
    rstripSlash (pre ++ wkMarker) = pre ++ wkMarker := by
  unfold rstripSlash
  rw [List.reverse_append, List.dropWhile_append]
  have h1 : (wkMarker.reverse.dropWhile (fun c => c == '/')) = wkMarker.reverse := by
    decide
  have h2 : wkMarker.reverse.isEmpty = false := by decide
  rw [h1, h2]
  simp

theorem rstripSlash_append_of_fix (bp ext : List Char)
    (hfix : rstripSlash bp = bp) :
    (rstripSlash ext = [] → rstripSlash (bp ++ ext) = bp) ∧
    (rstripSlash ext ≠ [] → rstripSlash (bp ++ ext) = bp ++ rstripSlash ext) := by
  constructor
  · intro h0
    have hdw : ext.reverse.dropWhile (fun c => c == '/') = [] := by
      unfold rstripSlash at h0
      simpa using h0
    unfold rstripSlash
    rw [List.reverse_append, List.dropWhile_append, hdw]
    simp only [List.isEmpty_nil, if_true]
    exact hfix
  · intro h0
    have hdw : ext.reverse.dropWhile (fun c => c == '/') ≠ [] := by
      intro hc
      apply h0
      unfold rstripSlash
      rw [hc]
      rfl
    unfold rstripSlash
    rw [List.reverse_append, List.dropWhile_append]
    rw [if_neg (by simpa [List.isEmpty_iff] using hdw)]
    rw [List.reverse_append]
    simp

theorem urlparse_concat (sch nl q : List Char)
    (hsch : sch = cs "http" ∨ sch = cs "https")
    (hnl : ∀ c ∈ nl, notNetlocEnd c = true)
    (hbl : nl.contains '[' = false) (hbr : nl.contains ']' = false)
    (hqh : q = [] ∨ ∃ t, q = '/' :: t)
    (hqm : ∀ c ∈ q, notPathEnd c = true) :
    urlparse (sch ++ cs "://" ++ nl ++ q) =
      .ok { scheme := sch, netloc := nl, path := q } := by
  have hnlq : (nl ++ q).takeWhile notNetlocEnd = nl := by
    rw [List.takeWhile_append_of_pos hnl]
    rcases hqh with h | ⟨t, h⟩
    · simp [h]
    · rw [h, List.takeWhile_cons_of_neg (by decide)]
      simp
  cases hsch with
  | inl h =>
    subst h
    have hsh : cs "http" ++ cs "://" ++ nl ++ q = cs "http://" ++ (nl ++ q) := by
      simp [cs, List.append_assoc]
    rw [hsh]
    have hst : pyStartsWith (cs "http://") (cs "http://" ++ (nl ++ q)) = true := by
      simp [pyStartsWith]
    have hsp : splitScheme (cs "http://" ++ (nl ++ q)) = some (cs "http", nl ++ q) := by
      unfold splitScheme
      rw [if_pos hst, List.drop_left' (by decide)]
    unfold urlparse
    rw [hsp]
    simp only [hnlq, hbl, hbr, Bool.or_self]
    rw [if_neg (by simp)]
    rw [List.drop_left, takeWhile_all hqm]
  | inr h =>
    subst h
    have hsh : cs "https" ++ cs "://" ++ nl ++ q = cs "https://" ++ (nl ++ q) := by
      simp [cs, List.append_assoc]
    rw [hsh]
    have hst1 : pyStartsWith (cs "http://") (cs "https://" ++ (nl ++ q)) = false := rfl
    have hst : pyStartsWith (cs "https://") (cs "https://" ++ (nl ++ q)) = true := by
      simp [pyStartsWith]
    have hsp : splitScheme (cs "https://" ++ (nl ++ q)) = some (cs "https", nl ++ q) := by
      unfold splitScheme
      rw [hst1]
      rw [if_neg (by simp)]
      rw [if_pos hst, List.drop_left' (by decide)]
    unfold urlparse
    rw [hsp]
    simp only [hnlq, hbl, hbr, Bool.or_self]
    rw [if_neg (by simp)]
    rw [List.drop_left, takeWhile_all hqm]

theorem urlparse_ok_facts (u : List Char) (parts : UrlParts)
    (hhttp : pyStartsWith (cs "http://") u = true ∨
      pyStartsWith (cs "https://") u = true)
    (h : urlparse u = .ok parts) :
    (parts.scheme = cs "http" ∨ parts.scheme = cs "https") ∧
    (∀ c ∈ parts.netloc, notNetlocEnd c = true) ∧
    parts.netloc.contains '[' = false ∧
    parts.netloc.contains ']' = false ∧
    (∀ c ∈ parts.path, notPathEnd c = true) ∧
    (parts.path = [] ∨ ∃ t, parts.path = '/' :: t) := by
  unfold urlparse at h
  cases hs : splitScheme u with
  | none =>
    exfalso
    unfold splitScheme at hs
    by_cases h1 : pyStartsWith (cs "http://") u = true
    · rw [if_pos h1] at hs
      simp at hs
    · rcases hhttp with hh | hh
      · exact h1 hh
      · rw [if_neg h1, if_pos hh] at hs
        simp at hs
  | some pr =>
    cases pr with
    | mk sch rest =>
      rw [hs] at h
      dsimp only at h
      by_cases hb : ((rest.takeWhile notNetlocEnd).contains '[' ||
          (rest.takeWhile notNetlocEnd).contains ']') = true
      · rw [if_pos hb] at h
        simp at h
      · rw [if_neg hb] at h
        injection h with h
        subst h
        have hbf : ((rest.takeWhile notNetlocEnd).contains '[' ||
            (rest.takeWhile notNetlocEnd).contains ']') = false := by
          simpa using hb
        have hb2 := Bool.or_eq_false_iff.1 hbf
        refine ⟨?_, ?_, hb2.1, hb2.2, ?_, ?_⟩
        · unfold splitScheme at hs
          by_cases h1 : pyStartsWith (cs "http://") u = true
          · rw [if_pos h1] at hs
            injection hs with hs
            injection hs with hsa hsb
            exact Or.inl hsa.symm
          · rw [if_neg h1] at hs
            by_cases h2 : pyStartsWith (cs "https://") u = true
            · rw [if_pos h2] at hs
              injection hs with hs
              injection hs with hsa hsb
              exact Or.inr hsa.symm
            · rw [if_neg h2] at hs
              simp at hs
        · intro c hc
          exact List.mem_takeWhile_imp hc
        · intro c hc
          exact List.mem_takeWhile_imp hc
        · rw [drop_length_takeWhile]
          cases hd : rest.dropWhile notNetlocEnd with
          | nil => simp
          | cons x t =>
            have hx := List.head?_dropWhile_not notNetlocEnd rest
            rw [hd] at hx
            simp only [List.head?_cons] at hx
            have hx3 : x = '/' ∨ x = '?' ∨ x = '#' := by
              unfold notNetlocEnd at hx
              have hx2 : ((x == '/' || x == '?') || x == '#') = true := by
                cases hxx : (x == '/' || x == '?' || x == '#') with
                | true => rfl
                | false => rw [hxx] at hx; simp at hx
              rcases Bool.or_eq_true_iff.1 hx2 with hh | hh
              · rcases Bool.or_eq_true_iff.1 hh with hg | hg
                · exact Or.inl (by simpa using hg)
                · exact Or.inr (Or.inl (by simpa using hg))
              · exact Or.inr (Or.inr (by simpa using hh))
            rcases hx3 with h3 | h3 | h3
            · subst h3
              right
              rw [List.takeWhile_cons_of_pos (by decide)]
              exact ⟨_, rfl⟩
            · subst h3
              left
              rw [List.takeWhile_cons_of_neg (by decide)]
            · subst h3
              left
              rw [List.takeWhile_cons_of_neg (by decide)]

/-- Every successful output of _get_well_known_base (on an http(s) URL)
is scheme ++ :// ++ netloc ++ (pre ++ marker), where the components carry
the re-parseability facts and the marker occurrence at `pre` is the first
one however the path is extended. -/
theorem get_well_known_base_shape (u b : List Char)
    (hhttp : pyStartsWith (cs "http://") u = true ∨
      pyStartsWith (cs "https://") u = true)
    (hb : get_well_known_base u = .ok b) :
    ∃ sch nl pre,
      (sch = cs "http" ∨ sch = cs "https") ∧
      (∀ c ∈ nl, notNetlocEnd c = true) ∧
      nl.contains '[' = false ∧ nl.contains ']' = false ∧
      (∀ c ∈ pre ++ wkMarker, notPathEnd c = true) ∧
      (∃ t, pre ++ wkMarker = '/' :: t) ∧
      (∀ tail, splitAtMarker (pre ++ wkMarker ++ tail) = some (pre, tail)) ∧
      b = sch ++ cs "://" ++ nl ++ (pre ++ wkMarker) := by
  unfold get_well_known_base at hb
  cases hp : urlparse u with
  | error e => rw [hp] at hb; simp at hb
  | ok parts =>
    rw [hp] at hb
    dsimp only at hb
    obtain ⟨hsch, hnl, hbl, hbr, hpm, hph⟩ := urlparse_ok_facts u parts hhttp hp
    have hrp_pref : rstripSlash parts.path <+: parts.path := rstripSlash_prefix _
    have hwkm : ∀ c ∈ wkMarker, notPathEnd c = true := by decide
    cases hsm : splitAtMarker (rstripSlash parts.path) with
    | some pr =>
      cases pr with
      | mk pre post =>
        rw [hsm] at hb
        injection hb with hb
        refine ⟨parts.scheme, parts.netloc, pre, hsch, hnl, hbl, hbr, ?_, ?_, ?_, hb.symm⟩
        · intro c hc
          rcases List.mem_append.1 hc with hc | hc
          · have hdecomp := splitAtMarker_decomp _ _ _ hsm
            have hmem : c ∈ rstripSlash parts.path := by
              rw [hdecomp]
              exact List.mem_append.2 (Or.inl (List.mem_append.2 (Or.inl hc)))
            exact hpm c (hrp_pref.subset hmem)
          · exact hwkm c hc
        · cases hpre0 : pre with
          | nil => exact ⟨cs ".well-known/skills", rfl⟩
          | cons c0 pt =>
            have hdecomp := splitAtMarker_decomp _ _ _ hsm
            have hpre_path : (c0 :: pt) <+: parts.path := by
              have h1 : (c0 :: pt) <+: rstripSlash parts.path := by
                rw [hdecomp, hpre0]
                exact (List.prefix_append _ _).trans (List.prefix_append _ _)
              exact h1.trans hrp_pref
            rcases hph with h0 | ⟨t, ht⟩
            · rw [h0] at hpre_path
              simp at hpre_path
            · rw [ht] at hpre_path
              have hc0 := (List.cons_prefix_cons.1 hpre_path).1
              subst hc0
              exact ⟨pt ++ wkMarker, rfl⟩
        · intro tail
          exact splitAtMarker_shift _ _ _ hsm tail
    | none =>
      rw [hsm] at hb
      injection hb with hb
      refine ⟨parts.scheme, parts.netloc, rstripSlash parts.path,
        hsch, hnl, hbl, hbr, ?_, ?_, ?_, hb.symm⟩
      · intro c hc
        rcases List.mem_append.1 hc with hc | hc
        · exact hpm c (hrp_pref.subset hc)
        · exact hwkm c hc
      · cases hrp0 : rstripSlash parts.path with
        | nil => exact ⟨cs ".well-known/skills", rfl⟩
        | cons c0 pt =>
          rcases hph with h0 | ⟨t, ht⟩
          · rw [h0] at hrp0
            simp [rstripSlash] at hrp0
          · have hpp : (c0 :: pt) <+: parts.path := hrp0 ▸ hrp_pref
            rw [ht] at hpp
            have hc0 := (List.cons_prefix_cons.1 hpp).1
            subst hc0
            exact ⟨pt ++ wkMarker, rfl⟩
      · intro tail
        exact splitAtMarker_append_of_none _ hsm tail

/-- Appending a path extension to a well-known base re-derives the same
base: every output of _get_well_known_base is a fixpoint, and remains one
under any slash-separated extension without query or fragment
characters. -/
theorem get_well_known_base_stable (u b ext : List Char)
    (hhttp : pyStartsWith (cs "http://") u = true ∨
      pyStartsWith (cs "https://") u = true)
    (hb : get_well_known_base u = .ok b)
    (hext : ∀ c ∈ ext, notPathEnd c = true) :
    get_well_known_base (b ++ ext) = .ok b := by
  obtain ⟨sch, nl, pre, hsch, hnl, hbl, hbr, hbpm, ⟨t0, ht0⟩, hsplit, hbe⟩ :=
    get_well_known_base_shape u b hhttp hb
  subst hbe
  have hshape : (sch ++ cs "://" ++ nl ++ (pre ++ wkMarker)) ++ ext =
      sch ++ cs "://" ++ nl ++ ((pre ++ wkMarker) ++ ext) := by
    simp [List.append_assoc]
  have hqm : ∀ c ∈ (pre ++ wkMarker) ++ ext, notPathEnd c = true := by
    intro c hc
    rcases List.mem_append.1 hc with hc | hc
    · exact hbpm c hc
    · exact hext c hc
  have hqh : (pre ++ wkMarker) ++ ext = [] ∨
      ∃ t, (pre ++ wkMarker) ++ ext = '/' :: t := by
    right
    rw [ht0]
    exact ⟨t0 ++ ext, rfl⟩
  unfold get_well_known_base
  rw [hshape, urlparse_concat sch nl ((pre ++ wkMarker) ++ ext) hsch hnl hbl hbr hqh hqm]
  dsimp only
  obtain ⟨hA, hB⟩ := rstripSlash_append_of_fix (pre ++ wkMarker) ext (rstrip_marker_fix pre)
  by_cases h0 : rstripSlash ext = []
  · rw [hA h0]
    have hs := hsplit []
    rw [List.append_nil] at hs
    rw [hs]
  · rw [hB h0]
    have hs := hsplit (rstripSlash ext)
    rw [hs]

/-- C6: the well-known base is scheme ++ :// ++ netloc ++ rstripped-path
++ /.well-known/skills when the path does not already contain the marker;
re-applying the computation to its own output — also after extending it
with further path segments, as URLs already containing the marker are —
returns the same base; and the spec's concrete example holds. -/
theorem C6_well_known_base_spec :
    (∀ u parts, urlparse u = .ok parts →
      splitAtMarker (rstripSlash parts.path) = none →
      get_well_known_base u =
        .ok (parts.scheme ++ cs "://" ++ parts.netloc ++
          (rstripSlash parts.path ++ wkMarker))) ∧
    (∀ u b ext,
      (pyStartsWith (cs "http://") u = true ∨
        pyStartsWith (cs "https://") u = true) →
      get_well_known_base u = .ok b →
      (∀ c ∈ ext, notPathEnd c = true) →
      get_well_known_base (b ++ ext) = .ok b) ∧
    get_well_known_base (cs "https://example.com/docs") =
      .ok (cs "https://example.com/docs/.well-known/skills") := by
  refine ⟨?_, get_well_known_base_stable, ?_⟩
  · intro u parts hp hsm
    unfold get_well_known_base
    rw [hp]
    dsimp only
    rw [hsm]
  · rfl

/-- Witness for C6 at concrete inputs: the computed base for
https://example.com/docs is itself a fixpoint, also after extending it
with a skill-name path segment. -/
theorem C6_well_known_base_spec_witness :
    get_well_known_base (cs "https://example.com/docs/.well-known/skills" ++ cs "/my-skill") =
      .ok (cs "https://example.com/docs/.well-known/skills") :=
  C6_well_known_base_spec.2.1 (cs "https://example.com/docs")
    (cs "https://example.com/docs/.well-known/skills") (cs "/my-skill")
    (Or.inr (by decide)) C6_well_known_base_spec.2.2 (by decide)

